import Mathlib

/-!
Verification of the terminal chess app's interaction controller.

The controller logic lives in `src/logic.rs` (the complete variant, with
keyboard navigation and promotion) and `src/main.rs` (an earlier, smaller
variant).  The chess rules themselves are the external `shakmaty` crate (the
spec's "Position Engine"): here it is an abstract record of operations, so
every theorem about the controller holds for any engine.  The parts of the
external crates whose concrete behaviour the controller depends on —
`shakmaty`'s `Square` indexing and `Square::offset`, and `rand`'s
`SliceRandom::choose` — are embedded faithfully from those crates'
documented semantics.

Rust panics (`unwrap` on `None`, out-of-range `Square::new`) are modelled by
an outer `Option`: a function returns `none` exactly when the Rust code
would panic on that input.
-/

namespace Chess

/-- A board square, as in shakmaty: raw index `file + 8 * rank`, `0 ≤ index < 64`.
So A1 = 0, H1 = 7, A2 = 8, …, H8 = 63. -/
abbrev Square := Fin 64

namespace Square

/-- The file (column) of a square, 0 = file A … 7 = file H. -/
def file (sq : Square) : Nat := sq.val % 8

/-- The rank (row) of a square, 0 = rank 1 … 7 = rank 8 (`Rank::Seventh` is index 6). -/
def rank (sq : Square) : Nat := sq.val / 8

/-- shakmaty `Square::offset(delta)`: add `delta` to the raw square index and
return `None` when the result falls outside `0..64`.  There is no file/rank
wrap protection: `offset` is pure index arithmetic. -/
def offset (sq : Square) (delta : Int) : Option Square :=
  let i : Int := (sq.val : Int) + delta
  if h : 0 ≤ i ∧ i < 64 then some ⟨i.toNat, by omega⟩ else none

/-- Square A1, raw index 0. -/
def A1 : Square := ⟨0, by decide⟩

end Square

/-- Piece roles, as in shakmaty. -/
inductive Role where
  | pawn | knight | bishop | rook | queen | king
deriving DecidableEq, Repr

/-- Side colours, as in shakmaty. -/
inductive Color where
  | white | black
deriving DecidableEq, Repr

/-- The spec's `GameOutcome`. -/
inductive GameOutcome where
  | Ongoing | HumanWins | OpponentWins | Draw
deriving DecidableEq, Repr

/-- The Position Engine interface (spec §6), i.e. the operations of
`shakmaty::Chess` and `shakmaty::Move` that the controller consumes.  `Pos` is
the engine's position type and `Move` its opaque move type. -/
structure Engine (Pos Move : Type) where
  /-- `Position::legal_moves()` for the side to move. -/
  legal_moves : Pos → List Move
  /-- `Position::play_unchecked(mv)`, as a pure state transformer. -/
  play_unchecked : Pos → Move → Pos
  /-- `Position::is_checkmate()`. -/
  is_checkmate : Pos → Bool
  /-- `Position::is_game_over()`. -/
  is_game_over : Pos → Bool
  /-- `Position::us().contains(sq)`: the side to move occupies `sq`. -/
  us_contains : Pos → Square → Bool
  /-- `Board::role_at(sq)`. -/
  role_at : Pos → Square → Option Role
  /-- `Position::turn()`: the side to move. -/
  turn : Pos → Color
  /-- `Move::from()` (an `Option` in shakmaty, `None` for drops). -/
  mfrom : Move → Option Square
  /-- `Move::to()`. -/
  mto : Move → Square
  /-- `Move::promotion()`. -/
  mpromotion : Move → Option Role

/-- rand's `SliceRandom::choose(&mut rng)`: `None` on an empty slice, otherwise
some element drawn by the generator.  The generator draw is modelled by the
natural number `r`; on a non-empty list the chosen index is `r % length`. -/
def chooseRandom {α : Type} (xs : List α) (r : Nat) : Option α :=
  xs.get? (r % xs.length)

/-- The text of the dialogs raised by `BoardView::move_and_reply` in
`src/logic.rs` (identical in `src/main.rs`). -/
def msgHumanWins : String := "Game Over. You win."

/-- Dialog text for any non-checkmate game over. -/
def msgDraw : String := "Game Over."

/-- Dialog text when the random opponent mates the human. -/
def msgOpponentWins : String := "Game Over. I win. Hahaha."

/-- How the host maps `move_and_reply`'s dialog message (if any) to the
spec's `GameOutcome` (spec §6): `None` means the game goes on. -/
def msgOutcome : Option String → GameOutcome
  | none => GameOutcome.Ongoing
  | some m =>
    if m = msgHumanWins then GameOutcome.HumanWins
    else if m = msgOpponentWins then GameOutcome.OpponentWins
    else GameOutcome.Draw

/-- Result of `BoardView::move_and_reply`: the board after the applied
ply/plies, the list of moves passed to `play_unchecked` (in order), and the
game-over dialog message, `none` when the game continues (the source's
`Option<EventResult>`). -/
structure ReplyResult (Pos Move : Type) where
  board : Pos
  played : List Move
  over : Option String
deriving Repr

/-- `BoardView::move_and_reply` from `src/logic.rs` lines 48–78 (the same
sequence is inlined in `src/main.rs` lines 123–149).  Plays the human move,
checks checkmate then game-over, otherwise draws a random reply from the
current legal moves (`.unwrap()` on the draw: the outer `none` is the panic
when the legal-move list is empty), plays it, and checks again.  `r` models
the RNG draw. -/
def moveAndReply {Pos Move : Type} (E : Engine Pos Move) (b : Pos) (r : Nat)
    (mv : Move) : Option (ReplyResult Pos Move) :=
  let b1 := E.play_unchecked b mv
  if E.is_checkmate b1 then
    some ⟨b1, [mv], some msgHumanWins⟩
  else if E.is_game_over b1 then
    some ⟨b1, [mv], some msgDraw⟩
  else
    match chooseRandom (E.legal_moves b1) r with
    | none => none
    | some cpu =>
      let b2 := E.play_unchecked b1 cpu
      if E.is_checkmate b2 then
        some ⟨b2, [mv, cpu], some msgOpponentWins⟩
      else if E.is_game_over b2 then
        some ⟨b2, [mv, cpu], some msgDraw⟩
      else
        some ⟨b2, [mv, cpu], none⟩

/-- The UI side effects the controller can request through a cursive
callback: opening the promotion role-choice dialog, or the game-over dialog
with its message. -/
inductive UiAction where
  | promotionDialog
  | gameOverDialog (msg : String)
deriving DecidableEq, Repr

/-- cursive's `EventResult`: `Ignored`, or `Consumed` with an optional
callback (here, the `UiAction` the callback performs). -/
inductive EventResult where
  | ignored
  | consumed (cb : Option UiAction)
deriving DecidableEq, Repr

/-- The controller state of `BoardView` in `src/logic.rs`: the engine
position, the selected move origin (`focused`), the keyboard cursor
(`highlighted`), and the contents of the shared promotion cell
(`promotion : Rc<RefCell<Option<Role>>>`).  The RNG lives outside the state
(each call that draws takes an `r : Nat`). -/
structure BoardView (Pos : Type) where
  board : Pos
  focused : Option Square
  highlighted : Option Square
  promotion : Option Role

/-- `BoardView::new()`: fresh state over the engine's starting position `b`
(`Chess::default()`), with no origin, no cursor, and an empty promotion
cell. -/
def BoardView.new {Pos : Type} (b : Pos) : BoardView Pos :=
  { board := b, focused := none, highlighted := none, promotion := none }

/-- The promotion dialog's `on_submit` closure (`src/logic.rs` lines 98–101):
store the chosen role into the shared promotion cell (and close the
dialog). -/
def chooseRole {Pos : Type} (v : BoardView Pos) (piece : Role) : BoardView Pos :=
  { v with promotion := some piece }

/-- `BoardView::process_focus_change` from `src/logic.rs` lines 80–133, as a
pure function from the chosen square to the new state, the `EventResult`,
and the list of moves played through the engine on this event.  The outer
`none` is a panic propagated from `move_and_reply`.

With no origin and the chosen square occupied by the side to move, the
square becomes the origin; if it is on the absolute seventh rank (index 6)
and holds a pawn the promotion dialog is opened (the promotion cell is left
as it is), otherwise the promotion cell is cleared.  With an origin set, the
first legal move with this origin and destination is searched — when the
promotion cell holds a role the candidate's promotion must equal it, when it
is empty any promotion is accepted — and on a find `move_and_reply` runs; a
game-over result is returned with `focused` untouched, otherwise `focused`
is reset to `none`. -/
def processFocusChange {Pos Move : Type} (E : Engine Pos Move)
    (v : BoardView Pos) (r : Nat) (sq : Square) :
    Option (BoardView Pos × EventResult × List Move) :=
  match v.focused with
  | none =>
    if E.us_contains v.board sq then
      let v1 := { v with focused := some sq }
      if sq.rank == 6 && (E.role_at v1.board sq == some Role.pawn) then
        some (v1, EventResult.consumed (some UiAction.promotionDialog), [])
      else
        some ({ v1 with promotion := none }, EventResult.consumed none, [])
    else
      some (v, EventResult.ignored, [])
  | some fromSq =>
    let input_move := (E.legal_moves v.board).find? fun m =>
      E.mfrom m == some fromSq && E.mto m == sq &&
        (if v.promotion.isSome then E.mpromotion m == v.promotion else true)
    match input_move with
    | none => some ({ v with focused := none }, EventResult.consumed none, [])
    | some mv =>
      match moveAndReply E v.board r mv with
      | none => none
      | some res =>
        match res.over with
        | some msg =>
          some ({ v with board := res.board },
            EventResult.consumed (some (UiAction.gameOverDialog msg)), res.played)
        | none =>
          some ({ v with board := res.board, focused := none },
            EventResult.consumed none, res.played)

/-- cursive `Key`s as far as the controller distinguishes them: the four
arrows, and every other non-character key (Esc, Enter, Tab, …). -/
inductive Key where
  | left | right | up | down | other
deriving DecidableEq, Repr

/-- The input events `BoardView::on_event` matches on: a mouse press with
its position and the view's offset, any other mouse event, a character key,
a non-character key, or any other event. -/
inductive Event where
  | mousePress (position off : Nat × Nat)
  | mouseOther
  | char (c : Char)
  | key (k : Key)
  | other
deriving DecidableEq, Repr

/-- `BoardView::get_sq` from `src/logic.rs` lines 35–46 (identical in
`src/main.rs`).  `Vec2::checked_sub` is `None` when either coordinate would
underflow; the x offset is divided by the cell width 3; `fits_in(Vec2(8,8))`
is component-wise `≤`.  The outer `none` models the panics of the source:
`7 - pos.y` underflows at `pos.y = 8`, and `Square::new` rejects index 64
(reached at `pos.x = 8, pos.y = 0`); `some none` is an off-board location,
`some (some sq)` a board square. -/
def getSq (mousePos off : Nat × Nat) : Option (Option Square) :=
  if mousePos.1 < off.1 ∨ mousePos.2 < off.2 then some none
  else
    let x := (mousePos.1 - off.1) / 3
    let y := mousePos.2 - off.2
    if x ≤ 8 ∧ y ≤ 8 then
      if h : y ≤ 7 ∧ x + 8 * (7 - y) < 64 then some (some ⟨x + 8 * (7 - y), h.2⟩)
      else none
    else some none

/-- `BoardView::on_event` from `src/logic.rs` lines 175–224.  The outer
`none` is a panic: either propagated from `get_sq`/`process_focus_change`,
or the `self.highlighted.unwrap()` on line 199, which is reached with
`highlighted == None` when a non-arrow, non-space key arrives (the guard on
line 192 only covers arrows and space).  The arrow arms assign
`sq.offset(±1/±8)` straight into `highlighted`, an `Option`. -/
def onEvent {Pos Move : Type} (E : Engine Pos Move) (v : BoardView Pos)
    (r : Nat) (ev : Event) : Option (BoardView Pos × EventResult × List Move) :=
  match ev with
  | Event.mousePress position off =>
    match getSq position off with
    | none => none
    | some none => some (v, EventResult.ignored, [])
    | some (some sq) => processFocusChange E v r sq
  | Event.key k =>
    if v.highlighted.isNone then
      match k with
      | Key.left | Key.right | Key.up | Key.down =>
        some ({ v with highlighted := some Square.A1 }, EventResult.consumed none, [])
      | Key.other => none
    else
      match v.highlighted with
      | none => none
      | some sq =>
        match k with
        | Key.right =>
          some ({ v with highlighted := sq.offset 1 }, EventResult.consumed none, [])
        | Key.left =>
          some ({ v with highlighted := sq.offset (-1) }, EventResult.consumed none, [])
        | Key.up =>
          some ({ v with highlighted := sq.offset 8 }, EventResult.consumed none, [])
        | Key.down =>
          some ({ v with highlighted := sq.offset (-8) }, EventResult.consumed none, [])
        | Key.other => some (v, EventResult.ignored, [])
  | Event.char c =>
    if c = ' ' then
      if v.highlighted.isNone then
        some ({ v with highlighted := some Square.A1 }, EventResult.consumed none, [])
      else
        match v.highlighted with
        | none => none
        | some sq => processFocusChange E v r sq
    else some (v, EventResult.ignored, [])
  | Event.mouseOther => some (v, EventResult.ignored, [])
  | Event.other => some (v, EventResult.ignored, [])

/-! ### Helper lemmas -/

/-- A move drawn by `chooseRandom` is an element of the list it was drawn
from. -/
theorem chooseRandom_mem {α : Type} {xs : List α} {r : Nat} {m : α}
    (h : chooseRandom xs r = some m) : m ∈ xs := by
  unfold chooseRandom at h
  exact List.get?_mem h

/-- `chooseRandom` succeeds on every non-empty list. -/
theorem chooseRandom_isSome {α : Type} (xs : List α) (r : Nat)
    (h : xs ≠ []) : (chooseRandom xs r).isSome := by
  unfold chooseRandom
  have hlen : 0 < xs.length := List.length_pos.mpr h
  cases hget : xs.get? (r % xs.length) with
  | some m => rfl
  | none =>
    rw [List.get?_eq_none] at hget
    exact absurd hget (Nat.not_le.mpr (Nat.mod_lt r hlen))

/-- `chooseRandom` on the empty list is `none`, for every generator draw. -/
theorem chooseRandom_nil {α : Type} (r : Nat) :
    chooseRandom ([] : List α) r = none := rfl

/-! ### Concrete engine instances used to evaluate the theorems -/

/-- A minimal concrete engine over `Nat` positions and `Nat` moves: one legal
move everywhere, never a terminal position.  Used to instantiate the general
theorems at a concrete input. -/
def natEngine : Engine Nat Nat where
  legal_moves _ := [0]
  play_unchecked p m := p + m + 1
  is_checkmate _ := false
  is_game_over _ := false
  us_contains _ _ := false
  role_at _ _ := none
  turn _ := Color.white
  mfrom _ := none
  mto _ := Square.A1
  mpromotion _ := none

/-! ### C1: orchestration of a finalized human move -/

/-- C1.  For every finalized human move: after applying it, if the engine
reports checkmate the orchestrator reports `HumanWins` and applies no
further move; on any other game-over it reports `Draw` and applies no
further move; otherwise it applies exactly one opponent move drawn from the
current legal-move set and reports `OpponentWins` on checkmate, `Draw` on
other game-over, else `Ongoing`.  Each finalize performs exactly one or two
`play_unchecked` calls, never more.  (The hypothesis is the engine contract
of spec §6: a position with no legal moves is game over.) -/
theorem C1_finalize_orchestration {Pos Move : Type} (E : Engine Pos Move)
    (hwf : ∀ p, E.legal_moves p = [] → E.is_game_over p = true)
    (b : Pos) (r : Nat) (mv : Move) :
    ∃ res : ReplyResult Pos Move, moveAndReply E b r mv = some res ∧
      (E.is_checkmate (E.play_unchecked b mv) = true →
        msgOutcome res.over = GameOutcome.HumanWins ∧ res.played = [mv]) ∧
      (E.is_checkmate (E.play_unchecked b mv) = false →
        E.is_game_over (E.play_unchecked b mv) = true →
        msgOutcome res.over = GameOutcome.Draw ∧ res.played = [mv]) ∧
      (E.is_checkmate (E.play_unchecked b mv) = false →
        E.is_game_over (E.play_unchecked b mv) = false →
        ∃ cpu, cpu ∈ E.legal_moves (E.play_unchecked b mv) ∧
          res.played = [mv, cpu] ∧
          res.board = E.play_unchecked (E.play_unchecked b mv) cpu ∧
          (E.is_checkmate res.board = true →
            msgOutcome res.over = GameOutcome.OpponentWins) ∧
          (E.is_checkmate res.board = false → E.is_game_over res.board = true →
            msgOutcome res.over = GameOutcome.Draw) ∧
          (E.is_checkmate res.board = false → E.is_game_over res.board = false →
            msgOutcome res.over = GameOutcome.Ongoing)) ∧
      (res.played.length = 1 ∨ res.played.length = 2) := by
  unfold moveAndReply
  cases hc1 : E.is_checkmate (E.play_unchecked b mv) with
  | true =>
    refine ⟨⟨E.play_unchecked b mv, [mv], some msgHumanWins⟩, by simp [hc1],
      ?_, ?_, ?_, ?_⟩
    · intro _; exact ⟨by simp [msgOutcome], rfl⟩
    · intro h; simp [hc1] at h
    · intro h; simp [hc1] at h
    · exact Or.inl rfl
  | false =>
    cases hgo1 : E.is_game_over (E.play_unchecked b mv) with
    | true =>
      refine ⟨⟨E.play_unchecked b mv, [mv], some msgDraw⟩, by simp [hc1, hgo1],
        ?_, ?_, ?_, ?_⟩
      · intro h; simp [hc1] at h
      · intro _ _
        exact ⟨by simp [msgOutcome, msgDraw, msgHumanWins, msgOpponentWins], rfl⟩
      · intro _ h; simp [hgo1] at h
      · exact Or.inl rfl
    | false =>
      have hne : E.legal_moves (E.play_unchecked b mv) ≠ [] := by
        intro h
        have := hwf _ h
        rw [hgo1] at this
        cases this
      cases hch : chooseRandom (E.legal_moves (E.play_unchecked b mv)) r with
      | none =>
        have := chooseRandom_isSome _ r hne
        rw [hch] at this
        cases this
      | some cpu =>
        have hmem := chooseRandom_mem hch
        cases hc2 : E.is_checkmate (E.play_unchecked (E.play_unchecked b mv) cpu) with
        | true =>
          refine ⟨⟨E.play_unchecked (E.play_unchecked b mv) cpu, [mv, cpu],
            some msgOpponentWins⟩, by simp [hc1, hgo1, hch, hc2], ?_, ?_, ?_, ?_⟩
          · intro h; simp [hc1] at h
          · intro _ h; simp [hgo1] at h
          · intro _ _
            refine ⟨cpu, hmem, rfl, rfl, ?_, ?_, ?_⟩
            · intro _; simp [msgOutcome, msgOpponentWins, msgHumanWins]
            · intro h; simp [hc2] at h
            · intro h; simp [hc2] at h
          · exact Or.inr rfl
        | false =>
          cases hgo2 : E.is_game_over (E.play_unchecked (E.play_unchecked b mv) cpu) with
          | true =>
            refine ⟨⟨E.play_unchecked (E.play_unchecked b mv) cpu, [mv, cpu],
              some msgDraw⟩, by simp [hc1, hgo1, hch, hc2, hgo2], ?_, ?_, ?_, ?_⟩
            · intro h; simp [hc1] at h
            · intro _ h; simp [hgo1] at h
            · intro _ _
              refine ⟨cpu, hmem, rfl, rfl, ?_, ?_, ?_⟩
              · intro h; simp [hc2] at h
              · intro _ _
                simp [msgOutcome, msgDraw, msgHumanWins, msgOpponentWins]
              · intro _ h; simp [hgo2] at h
            · exact Or.inr rfl
          | false =>
            refine ⟨⟨E.play_unchecked (E.play_unchecked b mv) cpu, [mv, cpu],
              none⟩, by simp [hc1, hgo1, hch, hc2, hgo2], ?_, ?_, ?_, ?_⟩
            · intro h; simp [hc1] at h
            · intro _ h; simp [hgo1] at h
            · intro _ _
              refine ⟨cpu, hmem, rfl, rfl, ?_, ?_, ?_⟩
              · intro h; simp [hc2] at h
              · intro _ h; simp [hgo2] at h
              · intro _ _; simp [msgOutcome]
            · exact Or.inr rfl

/-- C1 witness: the orchestration theorem applied to the concrete `natEngine`
at board 0, draw 0, human move 5. -/
theorem C1_finalize_orchestration_witness :
    ∃ res : ReplyResult Nat Nat, moveAndReply natEngine 0 0 5 = some res ∧
      (res.played.length = 1 ∨ res.played.length = 2) := by
  obtain ⟨res, h1, _, _, _, h5⟩ :=
    C1_finalize_orchestration natEngine (fun p h => by simp [natEngine] at h) 0 0 5
  exact ⟨res, h1, h5⟩

/-! ### C8: the opponent policy draws from the legal-move set and fails fast -/

/-- An engine that violates the Position Engine contract: it reports no
legal moves yet also reports the game as not over.  Exhibits the
`unwrap` abort of the opponent draw. -/
def emptyEngine : Engine Nat Nat :=
  { natEngine with legal_moves := fun _ => [] }

/-- C8.  The opponent's move is always drawn from the legal-move set queried
immediately before selection; invoked on an empty legal-move set the draw
fails fast (`choose` yields `None`, the `unwrap` panics — the `none`
result) rather than silently doing nothing; and under the engine contract
that a position without legal moves is game over, the abort branch is
unreachable (`move_and_reply` never panics). -/
theorem C8_opponent_policy {Pos Move : Type} (E : Engine Pos Move) (b : Pos)
    (r : Nat) (mv : Move) :
    (∀ m, chooseRandom (E.legal_moves (E.play_unchecked b mv)) r = some m →
      m ∈ E.legal_moves (E.play_unchecked b mv)) ∧
    (E.is_checkmate (E.play_unchecked b mv) = false →
      E.is_game_over (E.play_unchecked b mv) = false →
      E.legal_moves (E.play_unchecked b mv) = [] →
      moveAndReply E b r mv = none) ∧
    ((∀ p, E.legal_moves p = [] → E.is_game_over p = true) →
      (moveAndReply E b r mv).isSome = true) := by
  refine ⟨fun m h => chooseRandom_mem h, ?_, ?_⟩
  · intro hc1 hgo1 hnil
    unfold moveAndReply
    simp [hc1, hgo1, hnil, chooseRandom_nil]
  · intro hwf
    unfold moveAndReply
    cases hc1 : E.is_checkmate (E.play_unchecked b mv) with
    | true => simp [hc1]
    | false =>
      cases hgo1 : E.is_game_over (E.play_unchecked b mv) with
      | true => simp [hc1, hgo1]
      | false =>
        have hne : E.legal_moves (E.play_unchecked b mv) ≠ [] := by
          intro h
          have := hwf _ h
          rw [hgo1] at this
          cases this
        cases hch : chooseRandom (E.legal_moves (E.play_unchecked b mv)) r with
        | none =>
          have := chooseRandom_isSome _ r hne
          rw [hch] at this
          cases this
        | some cpu =>
          cases hc2 : E.is_checkmate (E.play_unchecked (E.play_unchecked b mv) cpu) with
          | true => simp [hc1, hgo1, hch, hc2]
          | false =>
            cases hgo2 : E.is_game_over (E.play_unchecked (E.play_unchecked b mv) cpu) with
            | true => simp [hc1, hgo1, hch, hc2, hgo2]
            | false => simp [hc1, hgo1, hch, hc2, hgo2]

/-- C8 witness: with the well-behaved `natEngine` no draw ever aborts, and
the contract-violating `emptyEngine` hits the loud abort. -/
theorem C8_opponent_policy_witness :
    (moveAndReply natEngine 0 0 5).isSome = true ∧
    moveAndReply emptyEngine 0 0 5 = none := by
  constructor
  · exact (C8_opponent_policy natEngine 0 0 5).2.2 (fun p h => by simp [natEngine] at h)
  · exact (C8_opponent_policy emptyEngine 0 0 5).2.1 rfl rfl rfl

/-! ### C7: selecting a square not occupied by the side to move -/

/-- C7 counterexample.  In `src/logic.rs`, choosing a square with no origin
set and no piece of the side to move present returns
`EventResult::Ignored`, not a consumed event: the claim's "the input event
is consumed" fails.  State and board are indeed unchanged and no move is
played. -/
theorem C7_counterexample :
    processFocusChange natEngine (BoardView.new 0) 0 Square.A1 =
      some (BoardView.new 0, EventResult.ignored, []) := rfl

/-- C7 as amended.  For every square chosen while no origin is selected that
is not occupied by the side to move: the selection stays `NoOrigin`, the
state (board included) is unchanged, no move is applied, no error is
surfaced — but the event is reported as `Ignored` (handed back to the
host), not consumed. -/
theorem C7_empty_square_selection {Pos Move : Type} (E : Engine Pos Move)
    (v : BoardView Pos) (r : Nat) (sq : Square)
    (hf : v.focused = none) (hus : E.us_contains v.board sq = false) :
    processFocusChange E v r sq = some (v, EventResult.ignored, []) := by
  unfold processFocusChange
  rw [hf]
  simp [hus]

/-- C7 witness: the amended statement evaluated on `natEngine` (whose side
to move occupies no square) from the fresh state. -/
theorem C7_empty_square_selection_witness :
    processFocusChange natEngine (BoardView.new 0) 0 Square.A1 =
      some (BoardView.new 0, EventResult.ignored, []) ∧
    natEngine.us_contains 0 Square.A1 = false :=
  ⟨C7_empty_square_selection natEngine (BoardView.new 0) 0 Square.A1 rfl rfl, rfl⟩

/-! ### Inversion helpers for `processFocusChange` -/

/-- Unfolding of `processFocusChange` when an origin is already selected. -/
theorem processFocusChange_some_focused {Pos Move : Type} (E : Engine Pos Move)
    (v : BoardView Pos) (r : Nat) (sq fromSq : Square)
    (hf : v.focused = some fromSq) :
    processFocusChange E v r sq =
      match (E.legal_moves v.board).find? (fun m =>
        E.mfrom m == some fromSq && E.mto m == sq &&
          (if v.promotion.isSome then E.mpromotion m == v.promotion else true)) with
      | none => some ({ v with focused := none }, EventResult.consumed none, [])
      | some mv =>
        match moveAndReply E v.board r mv with
        | none => none
        | some res =>
          match res.over with
          | some msg => some ({ v with board := res.board },
              EventResult.consumed (some (UiAction.gameOverDialog msg)), res.played)
          | none => some ({ v with board := res.board, focused := none },
              EventResult.consumed none, res.played) := by
  unfold processFocusChange
  rw [hf]

/-- Unfolding of `processFocusChange` when no origin is selected. -/
theorem processFocusChange_none_focused {Pos Move : Type} (E : Engine Pos Move)
    (v : BoardView Pos) (r : Nat) (sq : Square) (hf : v.focused = none) :
    processFocusChange E v r sq =
      if E.us_contains v.board sq then
        if sq.rank == 6 && (E.role_at v.board sq == some Role.pawn) then
          some ({ v with focused := some sq },
            EventResult.consumed (some UiAction.promotionDialog), [])
        else
          some ({ v with focused := some sq, promotion := none },
            EventResult.consumed none, [])
      else some (v, EventResult.ignored, []) := by
  unfold processFocusChange
  rw [hf]

/-! ### Named squares used by the concrete scenarios -/

/-- Square E2, raw index 12. -/
def e2 : Square := ⟨12, by decide⟩

/-- Square E4, raw index 28. -/
def e4 : Square := ⟨28, by decide⟩

/-- Square A2, raw index 8. -/
def a2 : Square := ⟨8, by decide⟩

/-- Square A7, raw index 48 (absolute rank index 6, `Rank::Seventh`). -/
def a7 : Square := ⟨48, by decide⟩

/-- Square A8, raw index 56. -/
def a8 : Square := ⟨56, by decide⟩

/-- Square H1, raw index 7. -/
def h1 : Square := ⟨7, by decide⟩

/-! ### C2: selection reset after a finalized move -/

/-- An engine where the single legal move of position 0 (move `7`, from E2
to E4) mates at once: position 1 is checkmate. -/
def mateEngine : Engine Nat Nat where
  legal_moves p := if p = 0 then [7] else [9]
  play_unchecked p _ := p + 1
  is_checkmate p := p == 1
  is_game_over p := p == 1
  us_contains _ _ := true
  role_at _ _ := none
  turn _ := Color.white
  mfrom _ := some e2
  mto _ := e4
  mpromotion _ := none

/-- The state just before the mating selection: origin E2 selected, cursor
parked on H1. -/
def vMate : BoardView Nat :=
  { board := 0, focused := some e2, highlighted := some h1, promotion := none }

/-- C2 counterexample.  Finalizing the matching move `7` from `vMate` ends
the game (human checkmate), and `focused` is NOT reset: it remains
`some e2`.  The claim's "reset to NoOrigin unconditionally — including when
the finalized move ends the game" fails on `src/logic.rs` lines 123–129,
where `self.focused = None` runs only when `move_and_reply` returns no
game-over result. -/
theorem C2_counterexample :
    (processFocusChange mateEngine vMate 0 e4).map
      (fun out => (out.1.focused, out.2.1, out.2.2)) =
      some (some e2,
        EventResult.consumed (some (UiAction.gameOverDialog msgHumanWins)), [7]) := rfl

/-- C2 as amended.  After a square is chosen with an origin selected: the
keyboard cursor is never touched; when the finalized move ends the game
(game-over dialog raised) the selection stays at its origin (the board view
is discarded by the dialog); in every other outcome (no matching move, or
the game goes on after both plies) the selection is reset to `NoOrigin`. -/
theorem C2_selection_reset {Pos Move : Type} (E : Engine Pos Move)
    (v : BoardView Pos) (r : Nat) (sq fromSq : Square)
    (hf : v.focused = some fromSq)
    (out : BoardView Pos × EventResult × List Move)
    (h : processFocusChange E v r sq = some out) :
    out.1.highlighted = v.highlighted ∧
    (∀ msg, out.2.1 = EventResult.consumed (some (UiAction.gameOverDialog msg)) →
      out.1.focused = some fromSq) ∧
    (out.2.1 = EventResult.consumed none → out.1.focused = none) := by
  rw [processFocusChange_some_focused E v r sq fromSq hf] at h
  cases hfind : (E.legal_moves v.board).find? (fun m =>
      E.mfrom m == some fromSq && E.mto m == sq &&
        (if v.promotion.isSome then E.mpromotion m == v.promotion else true)) with
  | none =>
    simp only [hfind] at h
    obtain rfl := Option.some.inj h
    refine ⟨rfl, ?_, fun _ => rfl⟩
    intro msg hmsg
    simp at hmsg
  | some mv =>
    simp only [hfind] at h
    cases hmr : moveAndReply E v.board r mv with
    | none =>
      simp only [hmr] at h
      exact Option.noConfusion h
    | some res =>
      simp only [hmr] at h
      cases hov : res.over with
      | some msg =>
        simp only [hov] at h
        obtain rfl := Option.some.inj h
        refine ⟨rfl, fun _ _ => hf, ?_⟩
        intro hcb
        simp at hcb
      | none =>
        simp only [hov] at h
        obtain rfl := Option.some.inj h
        refine ⟨rfl, ?_, fun _ => rfl⟩
        intro msg hmsg
        simp at hmsg

/-- C2 witness: the amended statement evaluated on the concrete mate
scenario — cursor unchanged and, the game having ended, the origin
retained. -/
theorem C2_selection_reset_witness :
    ({ vMate with board := 1 } : BoardView Nat).highlighted = vMate.highlighted ∧
    ({ vMate with board := 1 } : BoardView Nat).focused = some e2 := by
  have h := C2_selection_reset mateEngine vMate 0 e4 e2 rfl
    ({ vMate with board := 1 },
      EventResult.consumed (some (UiAction.gameOverDialog msgHumanWins)), [7]) rfl
  exact ⟨h.1, h.2.1 msgHumanWins rfl⟩

/-! ### C4: when the role-choice dialog is presented -/

/-- Follows the spec's words for claim C4 (to be compared with the code's
behaviour): the chosen square holds a pawn of the side to move on the rank
immediately before that side's promotion rank (rank index 6 for White, 1
for Black), and at least one legal move from that square carries a
promotion role. -/
def specPromotionTrigger {Pos Move : Type} (E : Engine Pos Move) (b : Pos)
    (sq : Square) : Bool :=
  E.us_contains b sq && (E.role_at b sq == some Role.pawn) &&
    (sq.rank == (match E.turn b with | Color.white => 6 | Color.black => 1)) &&
    (E.legal_moves b).any (fun m => E.mfrom m == some sq && (E.mpromotion m).isSome)

/-- An engine where Black is to move with a pawn on A2 (rank index 1, the
rank immediately before Black's promotion rank), whose single legal move is
the promotion A2–A1=Q (move `3`). -/
def blackEngine : Engine Nat Nat where
  legal_moves p := if p = 0 then [3] else [4]
  play_unchecked p _ := p + 1
  is_checkmate _ := false
  is_game_over _ := false
  us_contains _ sq := sq == a2
  role_at _ sq := if sq == a2 then some Role.pawn else none
  turn _ := Color.black
  mfrom _ := some a2
  mto _ := Square.A1
  mpromotion _ := some Role.queen

/-- C4 counterexample.  With Black to move and a pawn on A2 about to
promote, the spec's trigger condition holds, yet `src/logic.rs` line 86
(which tests only the absolute seventh rank) selects the origin without
presenting the role-choice dialog: the slot is cleared and the event is
plainly consumed. -/
theorem C4_counterexample :
    specPromotionTrigger blackEngine 0 a2 = true ∧
    processFocusChange blackEngine (BoardView.new 0) 0 a2 =
      some ({ BoardView.new 0 with focused := some a2 },
        EventResult.consumed none, []) := ⟨rfl, rfl⟩

/-- C4 as amended.  For a square chosen while no origin is selected, the
role-choice dialog is presented exactly when the square is occupied by the
side to move, lies on the absolute seventh rank (index 6), and holds a
pawn — regardless of which side is moving and of whether any legal move from
the square carries a promotion role. -/
theorem C4_promotion_trigger {Pos Move : Type} (E : Engine Pos Move)
    (v : BoardView Pos) (r : Nat) (sq : Square) (hf : v.focused = none)
    (out : BoardView Pos × EventResult × List Move)
    (h : processFocusChange E v r sq = some out) :
    out.2.1 = EventResult.consumed (some UiAction.promotionDialog) ↔
      (E.us_contains v.board sq = true ∧ sq.rank = 6 ∧
        E.role_at v.board sq = some Role.pawn) := by
  rw [processFocusChange_none_focused E v r sq hf] at h
  cases hus : E.us_contains v.board sq with
  | false =>
    simp only [hus, Bool.false_eq_true, if_false] at h
    obtain rfl := Option.some.inj h
    simp [hus]
  | true =>
    cases hcond : (sq.rank == 6 && (E.role_at v.board sq == some Role.pawn)) with
    | true =>
      simp only [hus, if_true, hcond] at h
      obtain rfl := Option.some.inj h
      rw [Bool.and_eq_true, beq_iff_eq, beq_iff_eq] at hcond
      simp [hus, hcond.1, hcond.2]
    | false =>
      simp only [hus, if_true, hcond, Bool.false_eq_true, if_false] at h
      obtain rfl := Option.some.inj h
      constructor
      · intro hcb
        simp at hcb
      · rintro ⟨-, h1, h2⟩
        have : (sq.rank == 6 && (E.role_at v.board sq == some Role.pawn)) = true := by
          rw [Bool.and_eq_true, beq_iff_eq, beq_iff_eq]
          exact ⟨h1, h2⟩
        rw [hcond] at this
        cases this

/-- An engine with a White pawn on A7 whose legal moves in position 0 are
the four promotions A7–A8 (moves `0`,`1`,`2`,`3` promoting to queen, rook,
bishop, knight, in the engine's order), and one reply move `10` in every
later position. -/
def promoEngine : Engine Nat Nat where
  legal_moves p := if p = 0 then [0, 1, 2, 3] else [10]
  play_unchecked p _ := p + 1
  is_checkmate _ := false
  is_game_over _ := false
  us_contains _ sq := sq == a7
  role_at _ sq := if sq == a7 then some Role.pawn else none
  turn _ := Color.white
  mfrom m := if m ≤ 3 then some a7 else none
  mto m := if m ≤ 3 then a8 else e4
  mpromotion m :=
    if m = 0 then some Role.queen
    else if m = 1 then some Role.rook
    else if m = 2 then some Role.bishop
    else if m = 3 then some Role.knight
    else none

/-- C4 witness: selecting the White pawn on A7 (absolute seventh rank) from
a fresh state presents the role-choice dialog, by the amended trigger
characterization. -/
theorem C4_promotion_trigger_witness :
    (({ BoardView.new 0 with focused := some a7 } : BoardView Nat),
        EventResult.consumed (some UiAction.promotionDialog), ([] : List Nat)).2.1 =
      EventResult.consumed (some UiAction.promotionDialog) :=
  (C4_promotion_trigger promoEngine (BoardView.new 0) 0 a7 rfl
    ({ BoardView.new 0 with focused := some a7 },
      EventResult.consumed (some UiAction.promotionDialog), []) rfl).mpr
    ⟨rfl, rfl, rfl⟩

/-! ### C5: lifecycle of the shared promotion cell -/

/-- A state with a stale role in the promotion cell (left over from an
earlier dialog), no origin and no cursor. -/
def vStale : BoardView Nat :=
  { board := 0, focused := none, highlighted := none, promotion := some Role.rook }

/-- C5 counterexample.  Selecting the A7 pawn (a promotion-triggering
selection) presents the role-choice dialog while the promotion cell still
holds the stale rook: the cell is NOT cleared before the dialog is
presented (`src/logic.rs` lines 86–104 never touch the cell on that path),
contradicting the claimed lifecycle. -/
theorem C5_counterexample :
    (processFocusChange promoEngine vStale 0 a7).map
      (fun out => (out.2.1, out.1.promotion)) =
      some (EventResult.consumed (some UiAction.promotionDialog),
        some Role.rook) := rfl

/-- C5 as amended.  The promotion cell is cleared exactly on a new origin
selection that is not promotion-triggering; it is left untouched when the
role-choice dialog is presented; it is set only by the dialog's submit
callback (`chooseRole`); and at the moment a move is finalized it is read
but NOT cleared — it keeps its value. -/
theorem C5_promotion_slot_lifecycle {Pos Move : Type} (E : Engine Pos Move)
    (v : BoardView Pos) (r : Nat) (sq : Square)
    (out : BoardView Pos × EventResult × List Move)
    (h : processFocusChange E v r sq = some out) :
    (out.1.promotion = v.promotion ∨ out.1.promotion = none) ∧
    (out.2.1 = EventResult.consumed (some UiAction.promotionDialog) →
      out.1.promotion = v.promotion) ∧
    (out.2.2 ≠ [] → out.1.promotion = v.promotion) ∧
    (v.focused = none → E.us_contains v.board sq = true →
      out.2.1 ≠ EventResult.consumed (some UiAction.promotionDialog) →
      out.1.promotion = none) ∧
    (∀ piece, (chooseRole v piece).promotion = some piece) := by
  cases hf : v.focused with
  | none =>
    rw [processFocusChange_none_focused E v r sq hf] at h
    cases hus : E.us_contains v.board sq with
    | false =>
      simp only [hus, Bool.false_eq_true, if_false] at h
      obtain rfl := Option.some.inj h
      refine ⟨Or.inl rfl, fun _ => rfl, fun hne => (hne rfl).elim, ?_, fun _ => rfl⟩
      intro _ hus2
      cases hus2
    | true =>
      cases hcond : (sq.rank == 6 && (E.role_at v.board sq == some Role.pawn)) with
      | true =>
        simp only [hus, if_true, hcond] at h
        obtain rfl := Option.some.inj h
        exact ⟨Or.inl rfl, fun _ => rfl, fun hne => (hne rfl).elim,
          fun _ _ hne => (hne rfl).elim, fun _ => rfl⟩
      | false =>
        simp only [hus, if_true, hcond, Bool.false_eq_true, if_false] at h
        obtain rfl := Option.some.inj h
        exact ⟨Or.inr rfl, fun hcb => by simp at hcb, fun hne => (hne rfl).elim,
          fun _ _ _ => rfl, fun _ => rfl⟩
  | some fromSq =>
    rw [processFocusChange_some_focused E v r sq fromSq hf] at h
    cases hfind : (E.legal_moves v.board).find? (fun m =>
        E.mfrom m == some fromSq && E.mto m == sq &&
          (if v.promotion.isSome then E.mpromotion m == v.promotion else true)) with
    | none =>
      simp only [hfind] at h
      obtain rfl := Option.some.inj h
      refine ⟨Or.inl rfl, fun hcb => by simp at hcb, fun hne => (hne rfl).elim, ?_,
        fun _ => rfl⟩
      intro hn
      cases hn
    | some mv =>
      simp only [hfind] at h
      cases hmr : moveAndReply E v.board r mv with
      | none =>
        simp only [hmr] at h
        exact Option.noConfusion h
      | some res =>
        simp only [hmr] at h
        cases hov : res.over with
        | some msg =>
          simp only [hov] at h
          obtain rfl := Option.some.inj h
          refine ⟨Or.inl rfl, fun hcb => by simp at hcb, fun _ => rfl, ?_, fun _ => rfl⟩
          intro hn
          cases hn
        | none =>
          simp only [hov] at h
          obtain rfl := Option.some.inj h
          refine ⟨Or.inl rfl, fun hcb => by simp at hcb, fun _ => rfl, ?_, fun _ => rfl⟩
          intro hn
          cases hn

/-- C5 witness: the lifecycle theorem evaluated on the stale-rook state —
the dialog-presenting selection of A7 keeps the stale rook, and the dialog
choice is what stores a role. -/
theorem C5_promotion_slot_lifecycle_witness :
    ({ vStale with focused := some a7 } : BoardView Nat).promotion = some Role.rook ∧
    (chooseRole vStale Role.knight).promotion = some Role.knight := by
  have h := C5_promotion_slot_lifecycle promoEngine vStale 0 a7
    ({ vStale with focused := some a7 },
      EventResult.consumed (some UiAction.promotionDialog), []) rfl
  exact ⟨h.2.1 rfl, h.2.2.2.2 Role.knight⟩

/-! ### C6: destination choice with and without a pending promotion role -/

/-- The list of moves `move_and_reply` plays always starts with the human
move it was handed. -/
theorem moveAndReply_played {Pos Move : Type} (E : Engine Pos Move) {b : Pos}
    {r : Nat} {mv : Move} {res : ReplyResult Pos Move}
    (h : moveAndReply E b r mv = some res) :
    ∃ rest, res.played = mv :: rest := by
  unfold moveAndReply at h
  cases hc1 : E.is_checkmate (E.play_unchecked b mv) with
  | true =>
    simp only [hc1, if_true] at h
    obtain rfl := Option.some.inj h
    exact ⟨[], rfl⟩
  | false =>
    cases hgo1 : E.is_game_over (E.play_unchecked b mv) with
    | true =>
      simp only [hc1, Bool.false_eq_true, if_false, hgo1, if_true] at h
      obtain rfl := Option.some.inj h
      exact ⟨[], rfl⟩
    | false =>
      cases hch : chooseRandom (E.legal_moves (E.play_unchecked b mv)) r with
      | none =>
        simp only [hc1, Bool.false_eq_true, if_false, hgo1, hch] at h
        exact Option.noConfusion h
      | some cpu =>
        simp only [hc1, Bool.false_eq_true, if_false, hgo1, hch] at h
        cases hc2 : E.is_checkmate (E.play_unchecked (E.play_unchecked b mv) cpu) with
        | true =>
          simp only [hc2, if_true] at h
          obtain rfl := Option.some.inj h
          exact ⟨[cpu], rfl⟩
        | false =>
          cases hgo2 : E.is_game_over (E.play_unchecked (E.play_unchecked b mv) cpu) with
          | true =>
            simp only [hc2, Bool.false_eq_true, if_false, hgo2, if_true] at h
            obtain rfl := Option.some.inj h
            exact ⟨[cpu], rfl⟩
          | false =>
            simp only [hc2, Bool.false_eq_true, if_false, hgo2] at h
            obtain rfl := Option.some.inj h
            exact ⟨[cpu], rfl⟩

/-- The state of Scenario C before the destination choice: origin A7
selected, promotion cell empty. -/
def vPromo : BoardView Nat :=
  { board := 0, focused := some a7, highlighted := none, promotion := none }

/-- Scenario C after the user chose Knight in the dialog and reselected the
A7 origin: same state with the cell holding Knight. -/
def vPromoKnight : BoardView Nat :=
  { vPromo with promotion := some Role.knight }

/-- C6 counterexample.  Choosing the destination A8 with the promotion cell
empty does NOT fail to match: the predicate on `src/logic.rs` lines 112–120
accepts any promotion when the cell is empty, so the first candidate in the
engine's order — the queen promotion, move `0` — is found and finalized
(the opponent reply `10` follows), instead of the claimed "no match is
found and the selection resets". -/
theorem C6_counterexample :
    (processFocusChange promoEngine vPromo 0 a8).map (fun out => out.2.2) =
      some [0, 10] ∧
    promoEngine.mpromotion 0 = some Role.queen := ⟨rfl, rfl⟩

/-- C6 as amended.  When a destination is chosen with an origin selected:
any finalized human move is a legal move with that origin and destination,
and its promotion role equals the pending role whenever the cell holds one;
when the cell is empty, the first matching legal move in the engine's order
is finalized regardless of its promotion role — in particular, if any
matching move exists, a move IS finalized (the selection does not reset
without a move).  After choosing Knight, the finalized move's promotion
role is Knight. -/
theorem C6_promotion_role_match {Pos Move : Type} (E : Engine Pos Move)
    (v : BoardView Pos) (r : Nat) (sq fromSq : Square)
    (hf : v.focused = some fromSq)
    (out : BoardView Pos × EventResult × List Move)
    (h : processFocusChange E v r sq = some out) :
    (∀ mv rest, out.2.2 = mv :: rest →
      mv ∈ E.legal_moves v.board ∧ E.mfrom mv = some fromSq ∧ E.mto mv = sq ∧
      ∀ piece, v.promotion = some piece → E.mpromotion mv = some piece) ∧
    (v.promotion = none →
      ∀ m, m ∈ E.legal_moves v.board → E.mfrom m = some fromSq → E.mto m = sq →
        out.2.2 ≠ []) := by
  rw [processFocusChange_some_focused E v r sq fromSq hf] at h
  cases hfind : (E.legal_moves v.board).find? (fun m =>
      E.mfrom m == some fromSq && E.mto m == sq &&
        (if v.promotion.isSome then E.mpromotion m == v.promotion else true)) with
  | none =>
    simp only [hfind] at h
    obtain rfl := Option.some.inj h
    constructor
    · intro mv rest hcontr
      simp at hcontr
    · intro hpn m hm hfrom hto
      have hpred := List.find?_eq_none.mp hfind m hm
      rw [hfrom, hto, hpn] at hpred
      simp at hpred
  | some mv =>
    have hmem := List.mem_of_find?_eq_some hfind
    have hpred := List.find?_some hfind
    rw [Bool.and_eq_true, Bool.and_eq_true] at hpred
    obtain ⟨⟨hfrom, hto⟩, hrole⟩ := hpred
    rw [beq_iff_eq] at hfrom hto
    simp only [hfind] at h
    cases hmr : moveAndReply E v.board r mv with
    | none =>
      simp only [hmr] at h
      exact Option.noConfusion h
    | some res =>
      obtain ⟨rest0, hpl⟩ := moveAndReply_played E hmr
      simp only [hmr] at h
      have hmain : ∀ mv2 rest, res.played = mv2 :: rest →
          mv2 ∈ E.legal_moves v.board ∧ E.mfrom mv2 = some fromSq ∧
            E.mto mv2 = sq ∧
            ∀ piece, v.promotion = some piece → E.mpromotion mv2 = some piece := by
        intro mv2 rest hpl2
        rw [hpl] at hpl2
        obtain ⟨rfl, -⟩ := List.cons.inj hpl2
        refine ⟨hmem, hfrom, hto, ?_⟩
        intro piece hpv
        rw [hpv] at hrole
        simp only [Option.isSome_some, if_true, beq_iff_eq] at hrole
        exact hrole
      cases hov : res.over with
      | some msg =>
        simp only [hov] at h
        obtain rfl := Option.some.inj h
        refine ⟨hmain, ?_⟩
        intro _ _ _ _ _
        rw [hpl]
        simp
      | none =>
        simp only [hov] at h
        obtain rfl := Option.some.inj h
        refine ⟨hmain, ?_⟩
        intro _ _ _ _ _
        rw [hpl]
        simp

/-- C6 witness: with Knight pending and origin A7 reselected, choosing A8
finalizes the knight promotion (move `3`). -/
theorem C6_promotion_role_match_witness :
    (processFocusChange promoEngine vPromoKnight 0 a8).map (fun out => out.2.2) =
      some [3, 10] ∧
    promoEngine.mpromotion 3 = some Role.knight := by
  refine ⟨rfl, ?_⟩
  have h := (C6_promotion_role_match promoEngine vPromoKnight 0 a8 a7 rfl
    ({ vPromoKnight with board := 2, focused := none },
      EventResult.consumed none, [3, 10]) rfl).1 3 [10] rfl
  exact h.2.2.2 Role.knight rfl

/-! ### C3: cursor stepping at the board edge -/

/-- C3 (code bug).  `src/logic.rs` lines 198–218 assign `sq.offset(±1/±8)`
straight into the cursor, and shakmaty's `offset` is raw index arithmetic:
a rightward step from H1 (index 7) lands on A2 (index 8) — the cursor wraps
to the next rank instead of staying at file H — and an upward step from A8
(index 56) yields index 64, out of range, so the cursor becomes absent.
Both contradict the claimed no-op at the board edge. -/
theorem C3_cursor_step_bug :
    (onEvent natEngine
        { board := 0, focused := none, highlighted := some h1, promotion := none }
        0 (Event.key Key.right)).map (fun out => out.1.highlighted) =
      some (some a2) ∧
    (onEvent natEngine
        { board := 0, focused := none, highlighted := some a8, promotion := none }
        0 (Event.key Key.up)).map (fun out => out.1.highlighted) =
      some none := ⟨rfl, rfl⟩

/-! ### C9: key events with no cursor engaged -/

/-- C9 (code bug).  A non-arrow, non-space key (Esc, Enter, Tab, …)
arriving while the keyboard cursor is absent falls through the guard on
`src/logic.rs` line 192 into the `Event::Key(key)` arm, whose
`self.highlighted.unwrap()` on line 199 panics — the handler does not
return a result.  (`none` is the panic in this embedding.) -/
theorem C9_key_panic_bug :
    onEvent natEngine (BoardView.new 0) 0 (Event.key Key.other) = none := rfl

/-! ### C10: first arrow/space engages the cursor at A1 -/

/-- C10.  The first arrow-key or space event arriving with the keyboard
cursor absent sets the cursor to A1 and consumes the event; the board, the
selection and the promotion cell are untouched and no move is played on
that event. -/
theorem C10_cursor_initialization {Pos Move : Type} (E : Engine Pos Move)
    (v : BoardView Pos) (r : Nat) (ev : Event) (hc : v.highlighted = none)
    (hev : ev = Event.key Key.left ∨ ev = Event.key Key.right ∨
      ev = Event.key Key.up ∨ ev = Event.key Key.down ∨ ev = Event.char ' ') :
    onEvent E v r ev = some ({ v with highlighted := some Square.A1 },
      EventResult.consumed none, []) := by
  rcases hev with rfl | rfl | rfl | rfl | rfl <;>
    simp [onEvent, hc]

/-- C10 witness: a Left arrow in the fresh state engages the cursor at A1. -/
theorem C10_cursor_initialization_witness :
    onEvent natEngine (BoardView.new 0) 0 (Event.key Key.left) =
      some ({ BoardView.new 0 with highlighted := some Square.A1 },
        EventResult.consumed none, []) :=
  C10_cursor_initialization natEngine (BoardView.new 0) 0 (Event.key Key.left)
    rfl (Or.inl rfl)

end Chess
